import Mathlib

/-!
Verification development for the AITaskM backend's concurrency and
resilience layer: the priority request queue (`src/utils/requestQueue.js`),
the retrying AI client with fallback assignment (`src/utils/aiClient.js`,
also the variant in `src/unnamed/part_010`), the Redis-backed cache
(`RedisCache` in `src/utils/exportUtils.js`'s bundle) and the rate limiter
(`createRateLimiter` in `src/unnamed/part_003`).

Each definition is a shallow embedding of the corresponding JavaScript
function; machine details that do not matter to the claims (logging,
promise plumbing) are dropped, while every control-flow decision of the
source is kept.
-/

namespace AITaskM

/-! ## Request queue (`src/utils/requestQueue.js`)

A queued request is modelled by its `priority` (the second argument of
`enqueue`, an arbitrary integer) and a `seq` number recording enqueue
order (the source uses object identity plus `addedAt`; a strictly
increasing counter is an equivalent stand-in for "was enqueued earlier"). -/

structure QJob where
  priority : Int
  seq : Nat
  deriving Repr, DecidableEq

/-- The `options` object taken by the `RequestQueue` constructor and by
`configure`.  A JavaScript caller may omit any field (`none`); note the
source tests truthiness (`options.maxConcurrent || 5`, `if (options.maxConcurrent)`),
so a present-but-zero field behaves exactly like an absent one. -/
structure ConfigOpts where
  maxConcurrent : Option Nat := none
  maxQueueSize : Option Nat := none
  timeout : Option Nat := none
  deriving Repr, DecidableEq

/-- The mutable state of a `RequestQueue` instance
(`src/utils/requestQueue.js` lines 6-16): configuration, the waiting
area `queue`, the `running` counter and the statistics counters.
`nextSeq` is the bookkeeping counter feeding `QJob.seq`. -/
structure QueueState where
  maxConcurrent : Nat
  maxQueueSize : Nat
  timeout : Nat
  queue : List QJob
  running : Nat
  completed : Nat
  failed : Nat
  timeouts : Nat
  nextSeq : Nat
  deriving Repr, DecidableEq

namespace RequestQueue

/-- The comparator of line 57, `(a, b) => b.priority - a.priority`:
`a` may precede `b` iff the comparator is `<= 0`, i.e. `b.priority <= a.priority`
(descending priority). -/
def leJS (a b : QJob) : Bool := decide (b.priority ≤ a.priority)

/-- Stable insertion of `j` into an already-processed suffix: `j` stays
in front of the first element it may precede (`leJS j a`, that is
`a.priority ≤ j.priority`) and behind every strictly higher-priority
element. -/
def insertJob (j : QJob) : List QJob → List QJob
  | [] => [j]
  | a :: rest => if leJS j a then j :: a :: rest else a :: insertJob j rest

/-- Line 57: `this.queue.sort((a, b) => b.priority - a.priority)`.
ECMAScript `Array.prototype.sort` is required to be stable, and all
stable sorts under the same comparator compute the same list, so the
engine's sort is embedded as a stable insertion sort (each element is
inserted into the sorted remainder, staying in front of
equal-priority elements that followed it in the input). -/
def sortByPriority : List QJob → List QJob
  | [] => []
  | x :: xs => insertJob x (sortByPriority xs)

/-- The constructor (lines 6-16): `options.maxConcurrent || 5` etc.,
empty queue, all counters zero. -/
def init (o : ConfigOpts) : QueueState :=
  { maxConcurrent := match o.maxConcurrent with
      | some v => if v = 0 then 5 else v
      | none => 5
    maxQueueSize := match o.maxQueueSize with
      | some v => if v = 0 then 100 else v
      | none => 100
    timeout := match o.timeout with
      | some v => if v = 0 then 30000 else v
      | none => 30000
    queue := []
    running := 0
    completed := 0
    failed := 0
    timeouts := 0
    nextSeq := 0 }

/-- The `processQueue` method (lines 73-89, the synchronous part up to starting the
job): return unchanged unless `running < maxConcurrent` and the queue is
non-empty; otherwise shift the head request, clear its timer, increment
`running`, and hand the request out for execution (the `some` component). -/
def processQueue (s : QueueState) : QueueState × Option QJob :=
  if s.maxConcurrent ≤ s.running then (s, none)
  else
    match s.queue with
    | [] => (s, none)
    | r :: rest => ({ s with queue := rest, running := s.running + 1 }, some r)

/-- Admission outcome of `enqueue`: the promise is either pending
(`accepted`) or rejected right away with `Error('Queue is full')`. -/
inductive EnqueueResult where
  | accepted
  | queueFull
  deriving Repr, DecidableEq

/-- The `enqueue` method (lines 21-68): reject with `'Queue is full'` when
`queue.length >= maxQueueSize` (line 24), otherwise push the request,
re-sort by descending priority (lines 56-57) and run `processQueue`
synchronously (line 66). -/
def enqueue (s : QueueState) (prio : Int) : QueueState × EnqueueResult :=
  if s.maxQueueSize ≤ s.queue.length then (s, .queueFull)
  else
    let j : QJob := { priority := prio, seq := s.nextSeq }
    let s' := { s with queue := sortByPriority (s.queue ++ [j]), nextSeq := s.nextSeq + 1 }
    ((processQueue s').1, .accepted)

/-- A running job's `fn` resolved (lines 100-101 and the `finally` at
lines 115-116): `completed++`, `running--`.  The re-dispatch at line 119
goes through `setImmediate`, i.e. a later event-loop turn, so it is a
separate `processQueue` step. -/
def completeSuccess (s : QueueState) : QueueState :=
  { s with completed := s.completed + 1, running := s.running - 1 }

/-- A running job's `fn` threw (lines 107-109 and the `finally`):
`failed++`, `running--`. -/
def completeFailure (s : QueueState) : QueueState :=
  { s with failed := s.failed + 1, running := s.running - 1 }

/-- The deadline timer of request `j` fired while `j` was still waiting
(lines 42-53): `timeouts++`, splice the request out of the queue, reject
its promise with `'Request timeout'`. -/
def timeoutFire (s : QueueState) (j : QJob) : QueueState :=
  { s with timeouts := s.timeouts + 1, queue := s.queue.erase j }

/-- The `clear` method (lines 141-152): reject every waiting request with
`'Queue cleared'` and empty the waiting area. -/
def clear (s : QueueState) : QueueState :=
  { s with queue := [] }

/-- The `configure` method (lines 157-173): overwrite each limit only when the
corresponding option field is truthy. -/
def configure (s : QueueState) (o : ConfigOpts) : QueueState :=
  { s with
    maxConcurrent := match o.maxConcurrent with
      | some v => if v = 0 then s.maxConcurrent else v
      | none => s.maxConcurrent
    maxQueueSize := match o.maxQueueSize with
      | some v => if v = 0 then s.maxQueueSize else v
      | none => s.maxQueueSize
    timeout := match o.timeout with
      | some v => if v = 0 then s.timeout else v
      | none => s.timeout }

/-- One observable step of a `RequestQueue`: an `enqueue` call (with its
synchronous dispatch), a deferred `processQueue` tick, a running job
finishing (which requires a job to actually be in flight), a waiting
request's deadline timer firing, `clear`, or `configure`. -/
inductive QStep : QueueState → QueueState → Prop where
  | enq {s : QueueState} (prio : Int) : QStep s (enqueue s prio).1
  | proc {s : QueueState} : QStep s (processQueue s).1
  | doneOk {s : QueueState} (h : 0 < s.running) : QStep s (completeSuccess s)
  | doneErr {s : QueueState} (h : 0 < s.running) : QStep s (completeFailure s)
  | timer {s : QueueState} (j : QJob) (h : j ∈ s.queue) : QStep s (timeoutFire s j)
  | clearStep {s : QueueState} : QStep s (clear s)
  | config {s : QueueState} (o : ConfigOpts) : QStep s (configure s o)

/-- States an actual `RequestQueue` instance can be in: freshly
constructed, or reached from one by queue operations. -/
inductive Reachable : QueueState → Prop where
  | start (o : ConfigOpts) : Reachable (init o)
  | step {s s' : QueueState} : Reachable s → QStep s s' → Reachable s'

/-! ### Ordering invariant of the waiting area

The source keeps the waiting array in dispatch order by re-sorting it on
every `enqueue` with the stable comparator of line 57.  `jobLE a b` is
the resulting dispatch order: `a` is served no later than `b`. -/

/-- Dispatch order: strictly higher priority first, FIFO (by enqueue
sequence number) within a priority band. -/
def jobLE (a b : QJob) : Prop :=
  b.priority < a.priority ∨ (a.priority = b.priority ∧ a.seq ≤ b.seq)

theorem jobLE_trans {a b c : QJob} (h1 : jobLE a b) (h2 : jobLE b c) : jobLE a c := by
  unfold jobLE at *
  omega

theorem mem_insertJob {y j : QJob} {l : List QJob} :
    y ∈ insertJob j l ↔ y = j ∨ y ∈ l := by
  induction l with
  | nil => simp [insertJob]
  | cons a rest ih =>
    rw [insertJob]
    split
    · simp
    · simp only [List.mem_cons, ih]
      tauto

theorem insertJob_perm (j : QJob) (l : List QJob) :
    List.Perm (insertJob j l) (j :: l) := by
  induction l with
  | nil => simp [insertJob]
  | cons a rest ih =>
    rw [insertJob]
    split
    · exact List.Perm.refl _
    · exact (List.Perm.cons a ih).trans (List.Perm.swap j a rest)

theorem sortByPriority_perm (l : List QJob) :
    List.Perm (sortByPriority l) l := by
  induction l with
  | nil => exact List.Perm.refl _
  | cons x xs ih =>
    rw [sortByPriority]
    exact (insertJob_perm x (sortByPriority xs)).trans (List.Perm.cons x ih)

theorem pairwise_insertJob {j : QJob} {l : List QJob}
    (hl : l.Pairwise jobLE)
    (hj : ∀ y ∈ l, j.priority = y.priority → j.seq ≤ y.seq) :
    (insertJob j l).Pairwise jobLE := by
  induction l with
  | nil => simp [insertJob, jobLE]
  | cons a rest ih =>
    rw [insertJob]
    have hja : leJS j a → jobLE j a := by
      intro h
      simp only [leJS, decide_eq_true_eq] at h
      rcases lt_or_eq_of_le h with hlt | heq
      · exact Or.inl hlt
      · exact Or.inr ⟨heq.symm, hj a (List.mem_cons_self a rest) heq.symm⟩
    split
    · rename_i h
      refine List.pairwise_cons.mpr ⟨?_, hl⟩
      intro y hy
      rcases List.mem_cons.mp hy with rfl | hyr
      · exact hja h
      · exact jobLE_trans (hja h) ((List.pairwise_cons.mp hl).1 y hyr)
    · rename_i h
      have haj : jobLE a j := by
        simp only [leJS, decide_eq_true_eq] at h
        exact Or.inl (lt_of_not_le h)
      refine List.pairwise_cons.mpr ⟨?_, ?_⟩
      · intro y hy
        rcases mem_insertJob.mp hy with rfl | hyr
        · exact haj
        · exact (List.pairwise_cons.mp hl).1 y hyr
      · exact ih (List.pairwise_cons.mp hl).2
          (fun y hy => hj y (List.mem_cons_of_mem a hy))

/-- Stability of the line-57 sort: if the equal-priority entries of `l`
are listed in enqueue order, then the sorted array is totally ordered by
`jobLE` — descending priority, FIFO within a band. -/
theorem pairwise_sortByPriority {l : List QJob}
    (H : l.Pairwise fun a b => a.priority = b.priority → a.seq ≤ b.seq) :
    (sortByPriority l).Pairwise jobLE := by
  induction l with
  | nil => simp [sortByPriority]
  | cons x xs ih =>
    rw [sortByPriority]
    refine pairwise_insertJob (ih (List.pairwise_cons.mp H).2) ?_
    intro y hy hpri
    exact (List.pairwise_cons.mp H).1 y ((sortByPriority_perm xs).subset hy) hpri

/-- The head of a `jobLE`-sorted, duplicate-free waiting area beats every
other waiting job: strictly higher priority, or equal priority and
strictly earlier enqueue. -/
theorem head_beats_rest {d : QJob} {rest : List QJob}
    (hp : (d :: rest).Pairwise jobLE)
    (hn : ((d :: rest).map QJob.seq).Nodup) :
    ∀ x ∈ rest, x.priority < d.priority ∨ (x.priority = d.priority ∧ d.seq < x.seq) := by
  intro x hx
  have hle : jobLE d x := (List.pairwise_cons.mp hp).1 x hx
  have hne : d.seq ≠ x.seq := by
    have hmem : x.seq ∈ rest.map QJob.seq := List.mem_map_of_mem _ hx
    rw [List.map_cons, List.nodup_cons] at hn
    intro hcontra
    exact hn.1 (hcontra ▸ hmem)
  rcases hle with h | ⟨hpri, hseq⟩
  · exact Or.inl h
  · exact Or.inr ⟨hpri.symm, lt_of_le_of_ne hseq hne⟩

/-- Well-formedness of a queue state: the waiting area is in dispatch
order, every waiting job carries a sequence number below the counter,
and sequence numbers are pairwise distinct. -/
structure QueueOk (s : QueueState) : Prop where
  sorted : s.queue.Pairwise jobLE
  fresh : ∀ j ∈ s.queue, j.seq < s.nextSeq
  nodup : (s.queue.map QJob.seq).Nodup

theorem queueOk_init (o : ConfigOpts) : QueueOk (init o) := by
  refine ⟨?_, ?_, ?_⟩ <;> simp [init]

theorem queueOk_processQueue {s : QueueState} (h : QueueOk s) :
    QueueOk (processQueue s).1 := by
  unfold processQueue
  split
  · exact h
  · match hq : s.queue with
    | [] => simpa [hq] using h
    | r :: rest =>
      obtain ⟨hs, hf, hn⟩ := h
      rw [hq] at hs hf hn
      exact ⟨hs.of_cons, fun j hj => hf j (List.mem_cons_of_mem r hj),
        (List.nodup_cons.mp (by simpa using hn)).2⟩

theorem queueOk_enqueue {s : QueueState} (h : QueueOk s) (prio : Int) :
    QueueOk (enqueue s prio).1 := by
  unfold enqueue
  split
  · exact h
  · apply queueOk_processQueue
    obtain ⟨hs, hf, hn⟩ := h
    refine ⟨?_, ?_, ?_⟩
    · apply pairwise_sortByPriority
      rw [List.pairwise_append]
      refine ⟨hs.imp_of_mem ?_, by simp, ?_⟩
      · intro a b _ _ hab
        rcases hab with hlt | ⟨heq, hseq⟩
        · intro habs
          omega
        · intro _
          exact hseq
      · intro a ha b hb
        simp only [List.mem_singleton] at hb
        intro _
        subst hb
        exact Nat.le_of_lt (hf a ha)
    · intro j hj
      have hj' := (sortByPriority_perm _).subset hj
      rcases List.mem_append.mp hj' with hj2 | hj2
      · exact Nat.lt_succ_of_lt (hf j hj2)
      · rw [List.mem_singleton.mp hj2]
        exact Nat.lt_succ_self _
    · have hperm : List.Perm (sortByPriority (s.queue ++ [⟨prio, s.nextSeq⟩]))
          (s.queue ++ [⟨prio, s.nextSeq⟩]) := sortByPriority_perm _
      refine (hperm.map QJob.seq).nodup_iff.mpr ?_
      rw [List.map_append, List.nodup_append]
      refine ⟨hn, by simp, ?_⟩
      intro a ha hb
      simp only [List.map_cons, List.map_nil, List.mem_singleton] at hb
      subst hb
      simp only [List.mem_map] at ha
      obtain ⟨j, hj, hj2⟩ := ha
      exact absurd hj2 (Nat.ne_of_lt (hf j hj))

theorem queueOk_completeSuccess {s : QueueState} (h : QueueOk s) :
    QueueOk (completeSuccess s) := ⟨h.sorted, h.fresh, h.nodup⟩

theorem queueOk_completeFailure {s : QueueState} (h : QueueOk s) :
    QueueOk (completeFailure s) := ⟨h.sorted, h.fresh, h.nodup⟩

theorem queueOk_timeoutFire {s : QueueState} (h : QueueOk s) (j : QJob) :
    QueueOk (timeoutFire s j) := by
  have hsub : List.Sublist (s.queue.erase j) s.queue := List.erase_sublist j s.queue
  exact ⟨h.sorted.sublist hsub, fun x hx => h.fresh x (hsub.subset hx),
    (hsub.map QJob.seq).nodup h.nodup⟩

theorem queueOk_clear {s : QueueState} (_ : QueueOk s) : QueueOk (clear s) := by
  refine ⟨?_, ?_, ?_⟩ <;> simp [clear]

theorem queueOk_configure {s : QueueState} (h : QueueOk s) (o : ConfigOpts) :
    QueueOk (configure s o) := ⟨h.sorted, h.fresh, h.nodup⟩

/-- Every state an actual `RequestQueue` can be in is well-formed. -/
theorem reachable_queueOk {s : QueueState} (h : Reachable s) : QueueOk s := by
  induction h with
  | start o => exact queueOk_init o
  | step _ hstep ih =>
    cases hstep with
    | enq prio => exact queueOk_enqueue ih prio
    | proc => exact queueOk_processQueue ih
    | doneOk _ => exact queueOk_completeSuccess ih
    | doneErr _ => exact queueOk_completeFailure ih
    | timer j _ => exact queueOk_timeoutFire ih j
    | clearStep => exact queueOk_clear ih
    | config o => exact queueOk_configure ih o

/-! ### Claim theorems about the request queue -/

/-- C4: whenever dispatch capacity frees, a `RequestQueue` dispatches the
waiting job with the strictly highest priority value first, and among
jobs of equal priority it dispatches them in enqueue order (FIFO within
a priority band): every job left waiting after the dispatch has strictly
lower priority than the dispatched job, or equal priority and a strictly
later enqueue sequence number. -/
theorem dispatch_highest_priority_first (s s' : QueueState) (d : QJob)
    (hr : Reachable s) (hdisp : processQueue s = (s', some d)) :
    ∀ x ∈ s'.queue, x.priority < d.priority ∨ (x.priority = d.priority ∧ d.seq < x.seq) := by
  have hok := reachable_queueOk hr
  unfold processQueue at hdisp
  split at hdisp
  · exact absurd (congrArg Prod.snd hdisp) (by simp)
  · rcases hsq : s.queue with _ | ⟨r, rest⟩
    · rw [hsq] at hdisp
      exact absurd (congrArg Prod.snd hdisp) (by simp)
    · rw [hsq] at hdisp
      simp only [Prod.mk.injEq, Option.some.injEq] at hdisp
      obtain ⟨h1, h2⟩ := hdisp
      have hsorted : (r :: rest).Pairwise jobLE := by
        have := hok.sorted
        rw [hsq] at this
        exact this
      have hnodup : ((r :: rest).map QJob.seq).Nodup := by
        have := hok.nodup
        rw [hsq] at this
        exact this
      rw [← h2, ← h1]
      intro x hx
      exact head_beats_rest hsorted hnodup x hx

/-- Concrete trace for the dispatch-order witness: with
`maxConcurrent = 1`, a priority-0 job is dispatched immediately, a
priority-1 and then a priority-5 job are left waiting, and the running
job completes.  The next dispatch must pick the priority-5 job. -/
def c4TraceState : QueueState :=
  completeSuccess
    (enqueue (enqueue (enqueue (init { maxConcurrent := some 1 }) 0).1 1).1 5).1

theorem dispatch_highest_priority_first_witness :
    (1 : Int) < 5 ∨ ((1 : Int) = 5 ∧ 2 < 1) :=
  dispatch_highest_priority_first
    c4TraceState (processQueue c4TraceState).1 ⟨5, 2⟩
    (Reachable.step (Reachable.step (Reachable.step (Reachable.step
      (Reachable.start { maxConcurrent := some 1 })
      (QStep.enq 0)) (QStep.enq 1)) (QStep.enq 5)) (QStep.doneOk (by decide)))
    (by decide) ⟨1, 1⟩ (by decide)

/-- C3 (amended): `running ≤ maxConcurrent` is preserved by every queue
operation except `configure`: by `enqueue` (with its synchronous
dispatch), by a deferred dispatch tick, by job completion (success or
failure), by a waiting job's timeout, and by `clear`; `configure`
preserves it exactly when it does not lower `maxConcurrent` strictly
below the current `running` count. -/
theorem running_le_maxConcurrent_preserved (s : QueueState)
    (h : s.running ≤ s.maxConcurrent) :
    (∀ prio : Int, (enqueue s prio).1.running ≤ (enqueue s prio).1.maxConcurrent) ∧
    (processQueue s).1.running ≤ (processQueue s).1.maxConcurrent ∧
    (completeSuccess s).running ≤ (completeSuccess s).maxConcurrent ∧
    (completeFailure s).running ≤ (completeFailure s).maxConcurrent ∧
    (∀ j : QJob, (timeoutFire s j).running ≤ (timeoutFire s j).maxConcurrent) ∧
    (clear s).running ≤ (clear s).maxConcurrent ∧
    (∀ o : ConfigOpts,
      (∀ v, o.maxConcurrent = some v → v ≠ 0 → s.running ≤ v) →
      (configure s o).running ≤ (configure s o).maxConcurrent) := by
  have hproc : ∀ t : QueueState, t.running ≤ t.maxConcurrent →
      (processQueue t).1.running ≤ (processQueue t).1.maxConcurrent := by
    intro t ht
    unfold processQueue
    split
    · exact ht
    · rename_i hcap
      rcases t.queue with _ | ⟨r, rest⟩
      · exact ht
      · simp only []
        omega
  refine ⟨?_, hproc s h, by simpa [completeSuccess] using Nat.le_trans (Nat.sub_le _ _) h,
    by simpa [completeFailure] using Nat.le_trans (Nat.sub_le _ _) h,
    fun j => by simpa [timeoutFire] using h, by simpa [clear] using h, ?_⟩
  · intro prio
    unfold enqueue
    split
    · exact h
    · exact hproc _ h
  · intro o ho
    unfold configure
    rcases hmc : o.maxConcurrent with _ | v
    · simpa [hmc] using h
    · by_cases hv : v = 0
      · simpa [hmc, hv] using h
      · simpa [hmc, hv] using ho v hmc hv

theorem running_le_maxConcurrent_preserved_witness :
    (enqueue (init {}) 0).1.running ≤ (enqueue (init {}) 0).1.maxConcurrent :=
  (running_le_maxConcurrent_preserved (init {}) (by decide)).1 0

/-- Concrete trace refuting C3 as stated: two jobs are dispatched under
`maxConcurrent = 2`, then `configure({maxConcurrent: 1})` lowers the
limit below the running count. -/
def c3TraceState : QueueState :=
  configure (enqueue (enqueue (init { maxConcurrent := some 2 }) 0).1 0).1
    { maxConcurrent := some 1 }

/-- C3 counterexample: a reachable queue state in which
`running = 2 > 1 = maxConcurrent`, produced by `configure`; the invariant
is not preserved by every operation. -/
theorem running_gt_maxConcurrent_after_configure :
    Reachable c3TraceState ∧ c3TraceState.running = 2 ∧ c3TraceState.maxConcurrent = 1 :=
  ⟨Reachable.step (Reachable.step (Reachable.step
      (Reachable.start { maxConcurrent := some 2 })
      (QStep.enq 0)) (QStep.enq 0)) (QStep.config { maxConcurrent := some 1 }),
    by decide, by decide⟩

/-- C6: an `enqueue` call made when the number of waiting jobs (running
jobs excluded) has reached `maxQueueSize` fails immediately with the
`'Queue is full'` rejection and leaves the whole queue state — waiting
set and every counter — unchanged. -/
theorem enqueue_full_rejects (s : QueueState) (prio : Int)
    (h : s.maxQueueSize ≤ s.queue.length) :
    enqueue s prio = (s, EnqueueResult.queueFull) := by
  unfold enqueue
  simp [h]

/-- A queue whose waiting area is at capacity (`maxQueueSize = 1`, one
waiting job). -/
def c6FullState : QueueState :=
  { maxConcurrent := 2, maxQueueSize := 1, timeout := 1000,
    queue := [⟨0, 0⟩], running := 2, completed := 0, failed := 0,
    timeouts := 0, nextSeq := 1 }

theorem enqueue_full_rejects_witness :
    enqueue c6FullState 3 = (c6FullState, EnqueueResult.queueFull) :=
  enqueue_full_rejects c6FullState 3 (by decide)

/-! ### Deadline semantics of a single request (claim C1)

`enqueue` arms a timer of `timeout` ms at admission (lines 42-53); the
timer rejects the promise with `'Request timeout'` only while the
request is still in the waiting array.  `processQueue` clears that timer
as the very first thing it does with a dequeued request (lines 83-86),
before `await request.fn()` (line 98), so no deadline applies once a
request has been dispatched.  For a single request this gives the
following outcome as a function of the time `dispatchDelay` it waits
and the time `runTime` its work takes. -/

/-- Final state of an `enqueue` promise, with the instant it settles. -/
inductive JobResult where
  | resolvedAt (t : Nat)
  | timedOutAt (t : Nat)
  deriving Repr, DecidableEq

/-- What the code does with one request: if capacity frees before the
deadline (`dispatchDelay < timeout`) the timer is cleared at dispatch
and the promise resolves when the work finishes, however long that
takes; only a request still waiting at `timeout` is rejected with
`'Request timeout'`. -/
def jobOutcome (timeout dispatchDelay runTime : Nat) : JobResult :=
  if dispatchDelay < timeout then JobResult.resolvedAt (dispatchDelay + runTime)
  else JobResult.timedOutAt timeout

/-- The behaviour claim C1 describes (and the spec's §4.1, and the
repository's own test `'should timeout long requests'`): the deadline
covers waiting time plus execution time combined. -/
def specJobOutcome (timeout dispatchDelay runTime : Nat) : JobResult :=
  if dispatchDelay + runTime ≤ timeout then JobResult.resolvedAt (dispatchDelay + runTime)
  else JobResult.timedOutAt timeout

/-- C1 (code bug): with `timeout = 1000` ms, a request dispatched
immediately whose execution takes 2000 ms resolves at t = 2000 instead
of rejecting with `'Request timeout'` around t = 1000: the deadline
timer is cleared at dispatch (requestQueue.js lines 83-86) and never
covers execution time.  This contradicts the repository's own test
`'should timeout long requests'` (src/tests/requestQueue.test.js lines
69-73), which enqueues a 2000 ms job under `timeout: 1000` and expects
rejection with `'Request timeout'`. -/
theorem timeout_not_covering_execution :
    jobOutcome 1000 0 2000 = JobResult.resolvedAt 2000 ∧
    specJobOutcome 1000 0 2000 = JobResult.timedOutAt 1000 :=
  ⟨rfl, rfl⟩

end RequestQueue

/-! ## AI client retry logic

The repository carries two versions of the `AIClient` class.
`src/utils/aiClient.js` (the one loaded by `require('../utils/aiClient')`
in the tests, bundled after the queue tests) routes `assignTasks`
through `aiRequestQueue` and retries every failed attempt.  The variant
in `src/unnamed/part_010` has no queue but filters retries through
`isRetryableError`. -/

/-- A failed HTTP attempt as axios reports it: a response bearing a
status code, a network-level failure with no response object, or a
client-side timeout (`error.code === 'ECONNABORTED'`). -/
inductive RemoteError where
  | httpStatus (status : Nat)
  | network
  | aborted
  deriving Repr, DecidableEq

/-- The predicate `isRetryableError` (src/unnamed/part_010 lines 82-88):
`!error.response || error.response.status >= 500 || error.code === 'ECONNABORTED'`. -/
def isRetryableError : RemoteError → Bool
  | RemoteError.httpStatus s => decide (500 ≤ s)
  | RemoteError.network => true
  | RemoteError.aborted => true

/-- What the n-th HTTP attempt against the AI service returns
(attempts are numbered from 1, as in both clients). -/
def Transport (α : Type) := Nat → Except RemoteError α

namespace AIClientP10

/-- Recursion core of part_010's `callWithRetry` (lines 57-77), indexed
by the number of retries still allowed (`retryAttempts - attempt`).
Returns the final outcome together with the number of HTTP requests
made.  A failure is retried only while attempts remain AND
`isRetryableError` holds. -/
def callWithRetryGo {α : Type} (tr : Transport α) (attempt : Nat) :
    Nat → Except RemoteError α × Nat
  | 0 =>
    (match tr attempt with
     | Except.ok v => (Except.ok v, 1)
     | Except.error e => (Except.error e, 1))
  | remaining + 1 =>
    match tr attempt with
    | Except.ok v => (Except.ok v, 1)
    | Except.error e =>
      if isRetryableError e then
        let r := callWithRetryGo tr (attempt + 1) remaining
        (r.1, r.2 + 1)
      else (Except.error e, 1)

/-- Method `callWithRetry(endpoint, data, method, attempt = 1)` of
src/unnamed/part_010: first attempt is 1; retry while
`attempt < this.retryAttempts && this.isRetryableError(error)`. -/
def callWithRetry {α : Type} (tr : Transport α) (retryAttempts : Nat) :
    Except RemoteError α × Nat :=
  callWithRetryGo tr 1 (retryAttempts - 1)

end AIClientP10

namespace AIClientUtils

/-- Recursion core of `callWithRetry` in src/utils/aiClient.js (the
`for (let attempt = 1; attempt <= this.retryAttempts; attempt++)` loop,
lines 127-162 of the bundle): EVERY failure is retried while attempts
remain; no retryability check is made. -/
def callWithRetryGo {α : Type} (tr : Transport α) (attempt : Nat) :
    Nat → Except RemoteError α × Nat
  | 0 =>
    (match tr attempt with
     | Except.ok v => (Except.ok v, 1)
     | Except.error e => (Except.error e, 1))
  | remaining + 1 =>
    match tr attempt with
    | Except.ok v => (Except.ok v, 1)
    | Except.error _ =>
      let r := callWithRetryGo tr (attempt + 1) remaining
      (r.1, r.2 + 1)

/-- Method `callWithRetry` of src/utils/aiClient.js: loop from attempt 1 to
`retryAttempts`, throwing the last error after the loop. -/
def callWithRetry {α : Type} (tr : Transport α) (retryAttempts : Nat) :
    Except RemoteError α × Nat :=
  callWithRetryGo tr 1 (retryAttempts - 1)

end AIClientUtils

/-- C5 (amended, part_010 client): a first attempt failing with a 4xx
status is not retried: `callWithRetry` makes exactly 1 underlying
request and raises that 4xx error to its caller, because
`isRetryableError` only accepts network errors, 5xx responses and
client-side timeouts. -/
theorem callWithRetry_4xx_fails_immediately {α : Type} (tr : Transport α)
    (retryAttempts s : Nat) (h4 : 400 ≤ s) (h5 : s < 500)
    (htr : tr 1 = Except.error (RemoteError.httpStatus s)) :
    AIClientP10.callWithRetry tr retryAttempts = (Except.error (RemoteError.httpStatus s), 1) := by
  unfold AIClientP10.callWithRetry
  rcases hr : retryAttempts - 1 with _ | n
  · rw [AIClientP10.callWithRetryGo, htr]
  · rw [AIClientP10.callWithRetryGo, htr]
    have hfalse : ¬ (500 ≤ s) := by omega
    simp [isRetryableError, hfalse]

theorem callWithRetry_4xx_fails_immediately_witness :
    AIClientP10.callWithRetry
      ((fun _ => Except.error (RemoteError.httpStatus 404)) : Transport Unit) 3 =
      (Except.error (RemoteError.httpStatus 404), 1) :=
  callWithRetry_4xx_fails_immediately _ 3 404 (by decide) (by decide) rfl

/-- C5 counterexample: the queue-using client of src/utils/aiClient.js
retries 4xx responses like any other failure — against an endpoint that
always answers 400, its `callWithRetry` with the default
`retryAttempts = 3` makes 3 underlying requests, not 1. -/
theorem callWithRetry_utils_retries_4xx :
    AIClientUtils.callWithRetry
      ((fun _ => Except.error (RemoteError.httpStatus 400)) : Transport Unit) 3 =
      (Except.error (RemoteError.httpStatus 400), 3) :=
  rfl

/-! ## Fallback assignment (`fallbackAssignment`, src/utils/aiClient.js
lines 277-312 of the bundle) -/

/-- An employee as `fallbackAssignment` reads it: its identifier
(`emp._id || emp.id`), its reported current task load
(`emp.currentTasks || 0`, an absent load reads as 0) and its cap
`emp.maxTasks`.  The source tests the cap with `!emp.maxTasks`, so an
absent cap and a zero cap behave identically; both are modelled as 0
(meaning "no cap"). -/
structure Employee where
  id : Nat
  currentTasks : Nat
  maxTasks : Nat := 0
  deriving Repr, DecidableEq

/-- A task as `fallbackAssignment` reads it (only `task._id || task.id`
is used). -/
structure Task where
  id : Nat
  deriving Repr, DecidableEq

/-- One entry of the produced `assignments` array; the constant
`reason` / `confidence` fields carry no information and are omitted. -/
structure Assignment where
  task_id : Nat
  assigned_to : Nat
  deriving Repr, DecidableEq

/-- The `employeeWorkload` object after the initial
`employees.forEach(emp => { employeeWorkload[id] = emp.currentTasks || 0 })`. -/
def initWorkload (employees : List Employee) : Nat → Nat :=
  employees.foldl (fun w e => fun k => if k = e.id then e.currentTasks else w k)
    (fun _ => 0)

/-- The `availableEmployees` filter (lines 288-290):
`!emp.maxTasks || employeeWorkload[id] < emp.maxTasks`. -/
def availableEmployees (employees : List Employee) (w : Nat → Nat) : List Employee :=
  employees.filter (fun e => e.maxTasks == 0 || decide (w e.id < e.maxTasks))

/-- The `reduce` of lines 297-299: starting from the first available
employee, take the current one only when its running workload is
strictly smaller — i.e. the earliest employee with the minimum count. -/
def pickLeastLoaded (w : Nat → Nat) (e0 : Employee) (rest : List Employee) : Employee :=
  rest.foldl (fun prev curr => if w curr.id < w prev.id then curr else prev) e0

/-- The `tasks.forEach` loop (lines 287-309): for each task in input
order, filter available employees, skip the task when none remains,
otherwise assign it to the least-loaded available employee and bump that
employee's running count. -/
def fallbackAssignmentGo (employees : List Employee) :
    List Task → (Nat → Nat) → List Assignment
  | [], _ => []
  | t :: ts, w =>
    match availableEmployees employees w with
    | [] => fallbackAssignmentGo employees ts w
    | e0 :: rest =>
      let chosen := pickLeastLoaded w e0 rest
      { task_id := t.id, assigned_to := chosen.id } ::
        fallbackAssignmentGo employees ts
          (fun k => if k = chosen.id then w chosen.id + 1 else w k)

/-- Function `fallbackAssignment(tasks, employees)` of src/utils/aiClient.js. -/
def fallbackAssignment (tasks : List Task) (employees : List Employee) :
    List Assignment :=
  fallbackAssignmentGo employees tasks (initWorkload employees)

/-- The algorithm claim C7 (and spec §4.2) describes, written from the
spec's words: per-employee counts initialized from each employee's
reported current load; each task in input order goes to the employee
with the strictly lowest running count, ties broken by the employees'
original input order, and that count is then incremented.  No notion of
a per-employee cap appears here. -/
def specGreedyGo (e0 : Employee) (rest : List Employee) :
    List Task → (Nat → Nat) → List Assignment
  | [], _ => []
  | t :: ts, w =>
    let chosen := pickLeastLoaded w e0 rest
    { task_id := t.id, assigned_to := chosen.id } ::
      specGreedyGo e0 rest ts
        (fun k => if k = chosen.id then w chosen.id + 1 else w k)

/-- The spec-side greedy workload balancer of claim C7 (with no
employees there is nothing to assign). -/
def specGreedyAssignment (tasks : List Task) (employees : List Employee) :
    List Assignment :=
  match employees with
  | [] => []
  | e0 :: rest => specGreedyGo e0 rest tasks (initWorkload employees)

/-- C7 (amended): on inputs where no employee carries a (nonzero)
`maxTasks` cap, `fallbackAssignment` is exactly the deterministic greedy
workload balancer the claim describes: counts start from each
employee's reported load, each task in input order goes to the
least-loaded employee (earliest employee on ties), whose count is then
incremented.  (Determinism is immediate: the function is pure.) -/
theorem fallbackAssignment_eq_greedy (tasks : List Task) (employees : List Employee)
    (h : ∀ e ∈ employees, e.maxTasks = 0) :
    fallbackAssignment tasks employees = specGreedyAssignment tasks employees := by
  unfold fallbackAssignment specGreedyAssignment
  have hfilter : ∀ w : Nat → Nat, availableEmployees employees w = employees := by
    intro w
    apply List.filter_eq_self.mpr
    intro e he
    simp [h e he]
  generalize initWorkload employees = w
  rcases employees with _ | ⟨e0, rest⟩
  · induction tasks generalizing w with
    | nil => rfl
    | cons t ts ih =>
      rw [fallbackAssignmentGo, hfilter]
      exact ih w
  · induction tasks generalizing w with
    | nil => rfl
    | cons t ts ih =>
      rw [fallbackAssignmentGo, hfilter]
      simp only [specGreedyGo, List.cons.injEq, true_and]
      exact ih _

theorem fallbackAssignment_eq_greedy_witness :
    fallbackAssignment [⟨10⟩, ⟨11⟩, ⟨12⟩] [⟨1, 0, 0⟩, ⟨2, 2, 0⟩] =
      specGreedyAssignment [⟨10⟩, ⟨11⟩, ⟨12⟩] [⟨1, 0, 0⟩, ⟨2, 2, 0⟩] :=
  fallbackAssignment_eq_greedy _ _ (by decide)

/-- C7 counterexample: with a capped employee the code is not the greedy
balancer of the claim.  Employee 1 has load 1 and cap `maxTasks = 1`,
employee 2 has load 5 and no cap: the claim's greedy algorithm assigns
the task to employee 1 (strictly lowest count 1 < 5), but the code
filters employee 1 out as at-capacity and assigns employee 2. -/
theorem fallback_not_greedy_with_caps :
    fallbackAssignment [⟨100⟩] [⟨1, 1, 1⟩, ⟨2, 5, 0⟩] =
      [{ task_id := 100, assigned_to := 2 }] ∧
    specGreedyAssignment [⟨100⟩] [⟨1, 1, 1⟩, ⟨2, 5, 0⟩] =
      [{ task_id := 100, assigned_to := 1 }] :=
  ⟨rfl, rfl⟩

/-! ## `assignTasks` (src/utils/aiClient.js lines 226-272 of the bundle) -/

/-- What `aiRequestQueue.enqueue(job, 2)` does with the caller's
promise: dispatch the job, or reject with one of the queue's errors —
`'Queue is full'` at admission (requestQueue.js line 29),
`'Request timeout'` while waiting (line 52), `'Queue cleared'` on
`clear()` (line 147). -/
inductive QueueOutcome where
  | dispatched
  | queueFull
  | requestTimeout
  | queueCleared
  deriving Repr, DecidableEq

/-- Method `assignTasks(tasks, employees, criteria)`: return the cached result
when present; otherwise `return await aiRequestQueue.enqueue(...)` with
NO try/catch around the `enqueue` call itself.  The job's body catches
any `callWithRetry` failure and substitutes
`fallbackAssignment(tasks, employees)`; a queue-level rejection is not
caught anywhere in `assignTasks` and propagates to its caller. -/
def assignTasks (cached : Option (List Assignment)) (qout : QueueOutcome)
    (remote : Except RemoteError (List Assignment))
    (tasks : List Task) (employees : List Employee) :
    Except String (List Assignment) :=
  match cached with
  | some c => Except.ok c
  | none =>
    match qout with
    | QueueOutcome.queueFull => Except.error "Queue is full"
    | QueueOutcome.requestTimeout => Except.error "Request timeout"
    | QueueOutcome.queueCleared => Except.error "Queue cleared"
    | QueueOutcome.dispatched =>
      match remote with
      | Except.ok r => Except.ok r
      | Except.error _ => Except.ok (fallbackAssignment tasks employees)

/-- C2 counterexample: when the AI request queue rejects the job at
admission (`'Queue is full'`), `assignTasks` rejects its caller with
that error instead of returning a fallback assignment result. -/
theorem assignTasks_throws_on_queue_rejection :
    assignTasks none QueueOutcome.queueFull (Except.error RemoteError.network) [] [] =
      Except.error "Queue is full" :=
  rfl

/-- C2 (amended): whenever the queued job is actually dispatched,
`assignTasks` never rejects: a successful remote call returns its
result, and a remote failure (after the internal retries are exhausted)
returns the fallback assignment; cache hits also always return.  Only a
queue-level rejection (queue full, waiting timeout, queue cleared)
propagates to the caller. -/
theorem assignTasks_dispatched_never_throws (cached : Option (List Assignment))
    (remote : Except RemoteError (List Assignment))
    (tasks : List Task) (employees : List Employee) :
    (assignTasks cached QueueOutcome.dispatched remote tasks employees).isOk = true := by
  unfold assignTasks
  rcases cached with _ | c
  · rcases remote with v | e <;> rfl
  · rfl

/-! ## RedisCache (`src/utils/redisCache.js`, bundled in
`src/utils/exportUtils.js`) -/

/-- The `RedisCache` wrapper together with the remote store it talks
to: `isConnected` mirrors the wrapper's flag; the store maps keys to a
serialized value with an absolute expiry instant (seconds — `setEx` and
Redis TTLs are in seconds).  An entry whose expiry has passed is what
Redis reports as missing. -/
structure RedisState where
  isConnected : Bool
  store : List (String × String × Nat)
  deriving Repr, DecidableEq

/-- Key lookup in the remote store. -/
def storeLookup (st : List (String × String × Nat)) (k : String) :
    Option (String × Nat) :=
  match st.find? (fun e => e.1 == k) with
  | some e => some e.2
  | none => none

/-- Replace any entry for `k` by a fresh one. -/
def storeWrite (st : List (String × String × Nat)) (k v : String) (expiry : Nat) :
    List (String × String × Nat) :=
  (k, v, expiry) :: st.filter (fun e => !(e.1 == k))

namespace RedisCache

/-- Method `get(key)` (exportUtils.js bundle lines 363-380): `null` when the
wrapper is disconnected (and on any store error); otherwise the live,
unexpired value, else `null`. -/
def get (s : RedisState) (now : Nat) (k : String) : Option String :=
  if !s.isConnected then none
  else
    match storeLookup s.store k with
    | some (v, expiry) => if now < expiry then some v else none
    | none => none

/-- Method `set(key, value, ttl)` (lines 385-398): a no-op returning `false`
when disconnected; otherwise `setEx key ttl value`, which stores the
value with expiry `now + ttl`, and returns `true`.  There is no
process-local fallback store inside this class. -/
def set (s : RedisState) (now : Nat) (k v : String) (ttl : Nat) :
    RedisState × Bool :=
  if !s.isConnected then (s, false)
  else ({ s with store := storeWrite s.store k v (now + ttl) }, true)

/-- Method `incr(key, ttl)` (lines 476-492): returns 0 when the wrapper is
disconnected (and on any store error); otherwise Redis `INCR` — 1 on a
missing or expired key, previous value + 1 on a live one — followed by
`EXPIRE key ttl` exactly when the result is 1. -/
def incr (s : RedisState) (now : Nat) (k : String) (ttl : Nat) :
    RedisState × Nat :=
  if !s.isConnected then (s, 0)
  else
    match storeLookup s.store k with
    | some (v, expiry) =>
      if now < expiry then
        let n := (v.toNat?).getD 0 + 1
        ({ s with store := storeWrite s.store k (toString n) expiry }, n)
      else ({ s with store := storeWrite s.store k "1" (now + ttl) }, 1)
    | none => ({ s with store := storeWrite s.store k "1" (now + ttl) }, 1)

end RedisCache

/-- C8 counterexample: with no shared backing store connected there is
no process-local store backing `RedisCache`: `set` is a no-op returning
`false` and the immediately following `get` returns `null`, not the
stored value. -/
theorem set_get_disconnected_returns_none :
    RedisCache.set ⟨false, []⟩ 0 "k" "v" 10 = (⟨false, []⟩, false) ∧
    RedisCache.get (RedisCache.set ⟨false, []⟩ 0 "k" "v" 10).1 0 "k" = none :=
  ⟨rfl, rfl⟩

/-- C8 (amended): while the shared store is connected,
`set(k, v, ttl)` followed by `get(k)` returns `v` as long as the TTL
has not elapsed, and the absent/`null` result once it has; when the
store is disconnected both operations degrade to no-ops (the
process-local fallback cache lives in `AIClient`, not in this class). -/
theorem set_get_connected (s : RedisState) (now later : Nat) (k v : String)
    (ttl : Nat) (hc : s.isConnected = true) :
    RedisCache.get (RedisCache.set s now k v ttl).1 later k =
      if later < now + ttl then some v else none := by
  unfold RedisCache.set RedisCache.get
  simp only [hc, Bool.not_true, Bool.false_eq_true, if_neg, ite_false]
  simp [storeLookup, storeWrite]

theorem set_get_connected_witness :
    RedisCache.get (RedisCache.set ⟨true, []⟩ 0 "k" "v" 10).1 3 "k" = some "v" := by
  have h := set_get_connected ⟨true, []⟩ 0 3 "k" "v" 10 rfl
  simpa using h

/-! ## Rate limiter (`createRateLimiter`, src/unnamed/part_003) -/

/-- The 429 payload sent by `createRateLimiter`'s `handler`
(part_003 lines 493-505): `retryAfter: Math.ceil(windowMs / 1000)` —
computed from the configured window length alone. -/
structure RateLimitResponse where
  status : Nat
  retryAfter : Nat
  deriving Repr, DecidableEq

/-- The rejection response of the handler; `windowMs` is the limiter's
configured window in milliseconds. -/
def rateLimitHandler (windowMs : Nat) : RateLimitResponse :=
  { status := 429, retryAfter := (windowMs + 999) / 1000 }

/-- Modelled from the spec: the hint C9 says the rejection should carry
— the seconds remaining in the current window (which started at
`windowStart`) at rejection time `now`, rounded up. -/
def specRetryAfterRemaining (windowStart now windowMs : Nat) : Nat :=
  ((windowStart + windowMs - now) + 999) / 1000

/-- C9 counterexample: for the 15-minute window (`windowMs = 900000`)
with 10 minutes already elapsed, the remaining window time is 300
seconds, but the handler's hint is the full 900 seconds. -/
theorem retryAfter_not_remaining_time :
    (rateLimitHandler 900000).retryAfter = 900 ∧
    specRetryAfterRemaining 0 600000 900000 = 300 :=
  ⟨rfl, rfl⟩

/-- C9 (amended): the rejection's `retryAfter` hint is always the FULL
configured window length in seconds, `ceil(windowMs / 1000)`,
independent of how much of the current window has elapsed; within an
active window it is therefore an upper bound on (and in general
strictly greater than) the remaining window time. -/
theorem retryAfter_is_full_window (windowMs windowStart now : Nat)
    (hstart : windowStart ≤ now) :
    (rateLimitHandler windowMs).retryAfter = (windowMs + 999) / 1000 ∧
    specRetryAfterRemaining windowStart now windowMs ≤
      (rateLimitHandler windowMs).retryAfter := by
  refine ⟨rfl, ?_⟩
  unfold specRetryAfterRemaining rateLimitHandler
  apply Nat.div_le_div_right
  omega

theorem retryAfter_is_full_window_witness :
    (rateLimitHandler 900000).retryAfter = 900 ∧
    specRetryAfterRemaining 0 600000 900000 ≤ 900 :=
  retryAfter_is_full_window 900000 0 600000 (by decide)

/-- The custom store `createRateLimiter` wires into `express-rate-limit`
when Redis was connected at limiter-creation time (part_003 lines
507-533): `increment(key)` returns
`totalHits = await redisCache.incr('ratelimit:' + key, ceil(windowMs/1000))`. -/
def rateLimiterIncrement (s : RedisState) (now : Nat) (key : String)
    (windowMs : Nat) : RedisState × Nat :=
  RedisCache.incr s now ("ratelimit:" ++ key) ((windowMs + 999) / 1000)

/-- Modelled from the documented contract of the third-party
`express-rate-limit` middleware (not part of this repository): a request
is allowed exactly when the window's `totalHits` count does not exceed
`max`. -/
def rateLimitAllows (max totalHits : Nat) : Bool := decide (totalHits ≤ max)

/-- C10: if the shared store is disconnected when `incr` runs, `incr`
returns 0 without touching anything (and cannot throw — it is total);
hence a limiter that was created with the Redis-backed store but later
lost the connection sees `totalHits = 0` for every request and allows
them all: rate limiting fails open. -/
theorem rateLimiter_fails_open (s : RedisState) (now : Nat) (key : String)
    (windowMs max : Nat) (hdisc : s.isConnected = false) :
    rateLimiterIncrement s now key windowMs = (s, 0) ∧
    rateLimitAllows max (rateLimiterIncrement s now key windowMs).2 = true := by
  have h : rateLimiterIncrement s now key windowMs = (s, 0) := by
    unfold rateLimiterIncrement RedisCache.incr
    simp [hdisc]
  exact ⟨h, by simp [h, rateLimitAllows]⟩

theorem rateLimiter_fails_open_witness :
    rateLimiterIncrement ⟨false, []⟩ 0 "1.2.3.4" 900000 = (⟨false, []⟩, 0) ∧
    rateLimitAllows 100 (rateLimiterIncrement ⟨false, []⟩ 0 "1.2.3.4" 900000).2 = true :=
  rateLimiter_fails_open ⟨false, []⟩ 0 "1.2.3.4" 900000 100 rfl

end AITaskM
